import Mathlib

/-
  Verification of the pyugrid unstructured-grid library (src/pyugrid/ugrid.py and
  src/pyugrid/read_netcdf.py) against its natural-language specification.

  The Python code is shallowly embedded: numpy integer arrays become lists of
  integers (the relevant dtypes are file dependent and no claim involves
  overflow, so mathematical integers are used), numpy 2-D arrays become lists
  of rows, Python dicts become association lists or recursive insert functions,
  Python sets become duplicate-free lists, and code paths that raise exceptions
  return values in an Except monad.
-/

set_option autoImplicit false

/-! ## Connectivity builder (UGrid.build_edges, UGrid.build_face_face_connectivity)

A face is a triple of node indices.  For local edge position j in 0,1,2 the
source forms the edge (face[j-1], face[j]) with the Python cyclic index -1,
so position 0 pairs the last and first vertices. -/

/-- Embedding of the local-edge extraction `edge = (face[j-1], face[j])` of
ugrid.py (lines 371 and 400): position 0 gives (third, first) because
`face[-1]` is the last vertex, position 1 gives (first, second) and
position 2 gives (second, third). -/
def faceEdge (f : ℤ × ℤ × ℤ) : ℕ → ℤ × ℤ
  | 0 => (f.2.2, f.1)
  | 1 => (f.1, f.2.1)
  | _ => (f.2.1, f.2.2)

/-- Embedding of the canonicalization `if edge[0] > edge[1]: edge = (edge[1], edge[0])`
of ugrid.py (lines 372-373 and 401-402). -/
def canonEdge (e : ℤ × ℤ) : ℤ × ℤ :=
  if e.2 < e.1 then (e.2, e.1) else e

/-- The list of all (position, canonical edge) occurrences produced by the
doubly nested loops `for i, face in enumerate(self.faces): for j in range(num_vertices)`
of ugrid.py, starting face numbering at `i`.  A position is a pair
(face index, local edge index). -/
def occListFrom : ℕ → List (ℤ × ℤ × ℤ) → List ((ℕ × ℕ) × (ℤ × ℤ))
  | _, [] => []
  | i, f :: rest =>
      ((i, 0), canonEdge (faceEdge f 0)) ::
      ((i, 1), canonEdge (faceEdge f 1)) ::
      ((i, 2), canonEdge (faceEdge f 2)) :: occListFrom (i + 1) rest

/-- All loop occurrences of a faces array, in source iteration order. -/
def occList (faces : List (ℤ × ℤ × ℤ)) : List ((ℕ × ℕ) × (ℤ × ℤ)) :=
  occListFrom 0 faces

/-- Embedding of `UGrid.build_edges` (ugrid.py lines 384-404): every canonical
local edge is accumulated into a Python set.  The set is modelled as a
duplicate-free list grown by append; the spec declares the iteration order of
the resulting set unspecified. -/
def build_edges (faces : List (ℤ × ℤ × ℤ)) : List (ℤ × ℤ) :=
  (occList faces).foldl (fun s oc => if oc.2 ∈ s then s else s ++ [oc.2]) []

/-- State of the `build_face_face_connectivity` loop: the face_face array
(modelled as a function from indices, materialized to a list of rows at the
end) and the working dict from canonical edge to (face index, local position),
modelled as an association list with unique keys. -/
structure FFState where
  ff : ℕ → ℕ → ℤ
  pending : List ((ℤ × ℤ) × (ℕ × ℕ))

/-- Association-list lookup, the embedding of the Python dict lookup done by
`edges.pop(edge, None)`. -/
def alookup : List ((ℤ × ℤ) × (ℕ × ℕ)) → ℤ × ℤ → Option (ℕ × ℕ)
  | [], _ => none
  | (k, v) :: rest, e => if k = e then some v else alookup rest e

/-- Removal part of the Python dict `pop`: all entries with the given key are
removed (the dict invariantly has unique keys, so at most one is). -/
def aremove (l : List ((ℤ × ℤ) × (ℕ × ℕ))) (e : ℤ × ℤ) : List ((ℤ × ℤ) × (ℕ × ℕ)) :=
  l.filter (fun p => decide (p.1 ≠ e))

/-- Pointwise update of the face_face array, the embedding of a single numpy
element assignment `face_face[a, b] = v`. -/
def upd2 (f : ℕ → ℕ → ℤ) (a b : ℕ) (v : ℤ) : ℕ → ℕ → ℤ :=
  fun x y => if x = a ∧ y = b then v else f x y

/-- One iteration of the inner loop of `UGrid.build_face_face_connectivity`
(ugrid.py lines 370-381): pop the canonical edge from the dict; if it was
there, write both adjacency slots (first `face_face[i, j] = face_num`, then
`face_face[face_num, edge_num] = i`); otherwise record the occurrence. -/
def ffStep (st : FFState) (oc : (ℕ × ℕ) × (ℤ × ℤ)) : FFState :=
  match alookup st.pending oc.2 with
  | some q =>
      { ff := upd2 (upd2 st.ff oc.1.1 oc.1.2 (q.1 : ℤ)) q.1 q.2 (oc.1.1 : ℤ),
        pending := aremove st.pending oc.2 }
  | none => { ff := st.ff, pending := (oc.2, oc.1) :: st.pending }

/-- The final loop state of `UGrid.build_face_face_connectivity`: the array
starts filled with -1 (lines 363-364) and the dict starts empty (line 367). -/
def build_ff_state (faces : List (ℤ × ℤ × ℤ)) : FFState :=
  (occList faces).foldl ffStep { ff := fun _ _ => -1, pending := [] }

/-- Embedding of `UGrid.build_face_face_connectivity` (ugrid.py lines 356-382):
the resulting (num_faces x 3) array, materialized row by row. -/
def build_face_face_connectivity (faces : List (ℤ × ℤ × ℤ)) : List (List ℤ) :=
  (List.range faces.length).map (fun i => (List.range 3).map (fun j => (build_ff_state faces).ff i j))

/-- Whether a face contains a given canonical edge among its three local
edges; used to count, per the claim wording, in how many FACES a canonical
edge occurs. -/
def faceHasEdge (f : ℤ × ℤ × ℤ) (e : ℤ × ℤ) : Bool :=
  decide (canonEdge (faceEdge f 0) = e) || decide (canonEdge (faceEdge f 1) = e) ||
    decide (canonEdge (faceEdge f 2) = e)

/-- Loop invariant of build_face_face_connectivity relative to the list P of
already-processed (position, canonical edge) occurrences: every pending dict
entry is a processed occurrence whose adjacency slot is still -1, dict keys
are unique, unprocessed slots are -1, and every written slot is half of a
mutual pair of processed occurrences of the same canonical edge. -/
def Good (P : List ((ℕ × ℕ) × (ℤ × ℤ))) (st : FFState) : Prop :=
  (∀ e q, (e, q) ∈ st.pending → (q, e) ∈ P ∧ st.ff q.1 q.2 = -1) ∧
  (∀ e q q', (e, q) ∈ st.pending → (e, q') ∈ st.pending → q = q') ∧
  (∀ a b : ℕ, (∀ e, ((a, b), e) ∉ P) → st.ff a b = -1) ∧
  (∀ a b : ℕ, st.ff a b ≠ -1 →
    ∃ (k j' : ℕ) (e : ℤ × ℤ), st.ff a b = (k : ℤ) ∧ ((a, b), e) ∈ P ∧ ((k, j'), e) ∈ P ∧
      (k, j') ≠ (a, b) ∧ st.ff k j' = (a : ℤ))

/-! ## The mesh data model (class UGrid and class DataSet of ugrid.py) -/

/-- The element class a data field is attached to; `DataSet.__init__` rejects
anything outside node, edge, face (ugrid.py lines 51-53). -/
inductive Location where
  | node
  | edge
  | face
deriving DecidableEq

/-- Attribute values carried by netCDF variables; the claims only need string
and integer valued attributes. -/
inductive AttrVal where
  | str : String → AttrVal
  | int : ℤ → AttrVal
deriving DecidableEq

/-- Embedding of class DataSet (ugrid.py lines 29-73): a named data array
attached to one element class, with free-form attributes.  Data values are
modelled as rationals (their numeric type is irrelevant to every claim). -/
structure DataSet where
  name : String
  location : Location
  data : List ℚ
  attributes : List (String × AttrVal)
deriving DecidableEq

/-- Embedding of class UGrid (ugrid.py lines 114-163): nodes are always an
(N x 2) float array, faces / edges / face_face_connectivity are optional
(None when absent), and the data fields live in a dict keyed by name,
modelled as an association list. -/
structure UGrid where
  nodes : List (ℚ × ℚ)
  faces : Option (List (ℤ × ℤ × ℤ))
  edges : Option (List (ℤ × ℤ))
  face_face_connectivity : Option (List (List ℤ))
  data : List (String × DataSet)
deriving DecidableEq

/-- Number of elements at a location, when the element array is present:
`len(self.nodes)`, `len(self.edges)`, `len(self.faces)` as used by
`UGrid.add_data` (ugrid.py lines 272-280).  For edges and faces the source
would raise a TypeError on a missing (None) array, hence the Option. -/
def elementCount (g : UGrid) : Location → Option ℕ
  | .node => some g.nodes.length
  | .edge => g.edges.map List.length
  | .face => g.faces.map List.length

/-- Python dict assignment `d[k] = v`: overwrite in place when the key exists,
append otherwise. -/
def dictInsert (k : String) (v : DataSet) : List (String × DataSet) → List (String × DataSet)
  | [] => [(k, v)]
  | (a, w) :: rest => if a = k then (a, v) :: rest else (a, w) :: dictInsert k v rest

/-- Association-list lookup for the data-field dict. -/
def slookup (k : String) : List (String × DataSet) → Option DataSet
  | [] => none
  | (a, v) :: rest => if a = k then some v else slookup k rest

/-- Embedding of `UGrid.add_data` (ugrid.py lines 261-282): a size check for
the declared location (raising ValueError on mismatch, modelled as error),
then the dict assignment `self._data[data_set.name] = data_set`.  A missing
element array would raise a TypeError from `len(None)` (also modelled as
error); the raise happens before any mutation, so an error leaves the grid
unchanged. -/
def add_data (g : UGrid) (ds : DataSet) : Except Unit UGrid :=
  match elementCount g ds.location with
  | none => .error ()
  | some n =>
      if ds.data.length ≠ n then .error ()
      else .ok { g with data := dictInsert ds.name ds g.data }

/-- Embedding of the `face_face_connectivity` property setter (ugrid.py lines
243-246): the body only rebinds its local parameter
(`face_face_connectivity = np.asarray(...)`) and never assigns
`self._face_face_connectivity`, so the grid is returned unchanged. -/
def set_face_face_connectivity (g : UGrid) (_a : List (List ℤ)) : UGrid :=
  g

/-- Embedding of the `nodes` property deleter (ugrid.py lines 209-214): the
node array becomes the empty (0 x 2) array and edges and faces are reset to
None; nothing else is touched. -/
def delete_nodes (g : UGrid) : UGrid :=
  { g with nodes := [], edges := none, faces := none }

/-- Embedding of `UGrid.locate_face_simple` (ugrid.py lines 339-354).  The
loop body evaluates `point_in_poly(f, point)`, but the module only imports
`point_in_tri` (line 23) and defines no `point_in_poly`, so the first
iteration raises a NameError (modelled as error).  With an empty faces array
the loop body never runs and None is returned; with faces absent, iterating
None would raise a TypeError. -/
def locate_face_simple (g : UGrid) (_point : ℚ × ℚ) : Except Unit (Option ℕ) :=
  match g.faces with
  | none => .error ()
  | some [] => .ok none
  | some (_ :: _) => .error ()

/-! ## Convention marshaller, load direction (read_netcdf.py) -/

/-- Embedding of the start_index / flag_values normalization of
load_grid_from_nc (read_netcdf.py lines 173-185), applied to the entries of a
connectivity array: when the declared start_index is at least 1 the array is
shifted by `array -= start_index`, and, when a (single) flag value is
declared, entries now equal to `flag_value - start_index` are restored to the
raw flag value; otherwise the array is left unchanged.  A variable without a
start_index attribute gets the default 0 and is likewise unchanged. -/
def apply_start_index (start_index : ℤ) (flag_values : Option ℤ) (array : List ℤ) : List ℤ :=
  if 1 ≤ start_index then
    match flag_values with
    | some f => (array.map (fun e => e - start_index)).map
        (fun x => if x = f - start_index then f else x)
    | none => array.map (fun e => e - start_index)
  else array

/-- Embedding of the numpy transpose `array.T` for the rectangular 2-D arrays
the loader reads: entry (j, i) of the result is entry (i, j) of the input. -/
def transposeArr (a : List (List ℤ)) : List (List ℤ) :=
  (List.range (a.headD []).length).map (fun j => a.map (fun row => row.getD j 0))

/-- Embedding of the shape fixup of load_grid_from_nc (read_netcdf.py lines
168-172): the stored 2-D array is transposed exactly when its first dimension
equals the expected minor count num_ind of the connectivity role (3 for
face-like roles, 2 for edge-like roles). -/
def load_connectivity (num_ind : ℕ) (array : List (List ℤ)) : List (List ℤ) :=
  if array.length = num_ind then transposeArr array else array

/-! ## Convention resolver (read_netcdf.py find_mesh_names / is_valid_mesh)
and data-field loading

A netCDF dataset is modelled as its list of variables, each carrying a name,
an attribute mapping and a (flat) data payload.  Attribute access raising
AttributeError corresponds to a missing key. -/

/-- A netCDF variable: name, attributes, data payload. -/
structure NCVar where
  vname : String
  attrs : List (String × AttrVal)
  vdata : List ℚ
deriving DecidableEq

/-- Attribute lookup on a variable, `var.getncattr(name)` / `var.name`;
none models the AttributeError raised for a missing attribute. -/
def attrLookup (a : String) : List (String × AttrVal) → Option AttrVal
  | [] => none
  | (k, val) :: rest => if k = a then some val else attrLookup a rest

/-- Attribute access `var.<a>` on a variable. -/
def getAttr (v : NCVar) (a : String) : Option AttrVal :=
  attrLookup a v.attrs

/-- Variable lookup `nc.variables[name]`; none models the KeyError. -/
def findVar : List NCVar → String → Option NCVar
  | [], _ => none
  | v :: rest, n => if v.vname = n then some v else findVar rest n

/-- A whitespace character for the Python `strip()` of `cf_role.strip()`. -/
def isSpace (c : Char) : Bool :=
  c == ' ' || c == '\t' || c == '\n' || c == '\r'

/-- Python `str.strip()`: drop whitespace from both ends. -/
def stripChars (l : List Char) : List Char :=
  ((l.dropWhile isSpace).reverse.dropWhile isSpace).reverse

/-- Value of a nonempty all-digit character run, none otherwise. -/
def digitsVal (l : List Char) : Option ℕ :=
  if l.isEmpty || !(l.all Char.isDigit) then none
  else some (l.foldl (fun n c => 10 * n + (c.toNat - 48)) 0)

/-- Python `int()` applied to a string: optional surrounding whitespace, an
optional sign, then digits; none models the ValueError raised otherwise. -/
def pyIntOfChars (l : List Char) : Option ℤ :=
  match stripChars l with
  | '-' :: rest => (digitsVal rest).map (fun n => -(n : ℤ))
  | '+' :: rest => (digitsVal rest).map (fun n => (n : ℤ))
  | l' => (digitsVal l').map (fun n => (n : ℤ))

/-- Python `int()` applied to an attribute value. -/
def pyInt : AttrVal → Option ℤ
  | .int n => some n
  | .str s => pyIntOfChars s.data

/-- The string content of an attribute value; none models the AttributeError
raised by calling `.strip()` on a non-string. -/
def asStr : AttrVal → Option String
  | .str s => some s
  | .int _ => none

/-- Embedding of `is_valid_mesh` (read_netcdf.py lines 30-50).  A missing
variable (KeyError) or a missing / non-string cf_role or missing
topology_dimension raises AttributeError, which the source catches and turns
into False (a failed cf_role comparison falls off the function and returns
the falsy None, also modelled as false).  `int(topology_dimension)` raising
ValueError is NOT caught and propagates, modelled as the error case. -/
def is_valid_mesh (nc : List NCVar) (varname : String) : Except Unit Bool :=
  match findVar nc varname with
  | none => .ok false
  | some v =>
      match getAttr v "cf_role" with
      | none => .ok false
      | some cf =>
          match asStr cf with
          | none => .ok false
          | some s =>
              if stripChars s.data = "mesh_topology".data then
                match getAttr v "topology_dimension" with
                | none => .ok false
                | some td =>
                    match pyInt td with
                    | none => .error ()
                    | some n => .ok (n = 2)
              else .ok false

/-- The mesh predicate of the claim: is_valid_mesh returns True (without
raising). -/
def mesh_predicateB (nc : List NCVar) (n : String) : Bool :=
  match is_valid_mesh nc n with
  | .ok true => true
  | _ => false

/-- Whether evaluating is_valid_mesh raises (propagates an uncaught
ValueError). -/
def is_valid_mesh_raises (nc : List NCVar) (n : String) : Bool :=
  match is_valid_mesh nc n with
  | .error _ => true
  | .ok _ => false

/-- Embedding of `find_mesh_names` (read_netcdf.py lines 16-28): collect, in
iteration order, the variable names accepted by is_valid_mesh; an exception
raised inside the loop propagates. -/
def find_mesh_names_go (nc : List NCVar) : List NCVar → Except Unit (List String)
  | [] => .ok []
  | v :: rest =>
      match is_valid_mesh nc v.vname with
      | .error _ => .error ()
      | .ok b =>
          match find_mesh_names_go nc rest with
          | .error _ => .error ()
          | .ok tl => .ok (if b then v.vname :: tl else tl)

/-- All conforming mesh names of a dataset. -/
def find_mesh_names (nc : List NCVar) : Except Unit (List String) :=
  find_mesh_names_go nc nc

/-- Embedding of the mesh-name resolution prefix of load_grid_from_nc
(read_netcdf.py lines 116-127): with no name given, find the candidates and
fail on zero or several; with a name given, fail when is_valid_mesh does not
accept it. -/
def resolve_mesh (nc : List NCVar) (mesh_name : Option String) : Except Unit String :=
  match mesh_name with
  | none =>
      match find_mesh_names nc with
      | .error _ => .error ()
      | .ok meshes =>
          match meshes with
          | [] => .error ()
          | [m] => .ok m
          | _ :: _ :: _ => .error ()
  | some name =>
      match is_valid_mesh nc name with
      | .error _ => .error ()
      | .ok true => .ok name
      | .ok false => .error ()

/-- Python `str.lstrip(chars)`: drop leading characters drawn from the
character SET of the argument (not the prefix string). -/
def pyLstrip (s : List Char) (cs : List Char) : List Char :=
  s.dropWhile (fun c => decide (c ∈ cs))

/-- Embedding of the data-field renaming of load_grid_from_nc
(read_netcdf.py line 211): `name.lstrip(mesh_name).lstrip('_')`. -/
def fieldName (mesh_name varname : String) : String :=
  String.mk (pyLstrip (pyLstrip varname.data mesh_name.data) ['_'])

/-- Python substring test `needle in hay` for strings. -/
def isSubstring (needle hay : List Char) : Bool :=
  (List.range (hay.length + 1)).any (fun i => needle.isPrefixOf (hay.drop i))

/-- Embedding of the attribute filtering of load_grid_from_nc (read_netcdf.py
line 208): `{n: ... for n in var.ncattrs() if n not in ('location' 'coordinates')}`.
The parenthesized operand is the juxtaposition of two string literals, i.e.
the single string "locationcoordinates", so `n not in ...` is a substring
test against that string, not tuple membership. -/
def fieldAttrs (attrs : List (String × AttrVal)) : List (String × AttrVal) :=
  attrs.filter (fun p => !(isSubstring p.1.data "locationcoordinates".data))

/-- Parse a location attribute value; DataSet.__init__ accepts exactly node,
edge, face and raises ValueError otherwise. -/
def locOf : AttrVal → Option Location
  | .str s =>
      if s = "node" then some Location.node
      else if s = "edge" then some Location.edge
      else if s = "face" then some Location.face
      else none
  | .int _ => none

/-- The DataSet built by load_grid_from_nc for a qualifying data-field
variable (read_netcdf.py lines 206-212). -/
def mkField (mesh_name : String) (v : NCVar) (loc : Location) : DataSet :=
  { name := fieldName mesh_name v.vname, location := loc,
    data := v.vdata, attributes := fieldAttrs v.attrs }

/-- Modelled from the claim wording, for comparison: the variable name with
the mesh-name prefix and one leading separator removed. -/
def specFieldName (mesh_name varname : String) : String :=
  if mesh_name.data.isPrefixOf varname.data then
    String.mk
      (match varname.data.drop mesh_name.data.length with
       | '_' :: rest => rest
       | r => r)
  else varname

/-- Modelled from the claim wording, for comparison: all attributes except
only the location marker. -/
def specFieldAttrs (attrs : List (String × AttrVal)) : List (String × AttrVal) :=
  attrs.filter (fun p => decide (p.1 ≠ "location"))

/-! ## Helper lemmas for the connectivity builder -/

theorem canonEdge_le (e : ℤ × ℤ) : (canonEdge e).1 ≤ (canonEdge e).2 := by
  unfold canonEdge
  split
  · exact le_of_lt (by assumption)
  · exact le_of_not_lt (by assumption)

theorem mem_occListFrom {i : ℕ} {fs : List (ℤ × ℤ × ℤ)} {a b : ℕ} {e : ℤ × ℤ} :
    ((a, b), e) ∈ occListFrom i fs ↔
      ∃ d f, fs.get? d = some f ∧ a = i + d ∧ b < 3 ∧ e = canonEdge (faceEdge f b) := by
  induction fs generalizing i with
  | nil => simp [occListFrom]
  | cons f rest ih =>
      simp only [occListFrom, List.mem_cons, Prod.mk.injEq, ih]
      constructor
      · rintro (⟨⟨ha, hb⟩, he⟩ | ⟨⟨ha, hb⟩, he⟩ | ⟨⟨ha, hb⟩, he⟩ | ⟨d, f', hget, ha, hb, he⟩)
        · exact ⟨0, f, rfl, by omega, by omega, by rw [he, hb]⟩
        · exact ⟨0, f, rfl, by omega, by omega, by rw [he, hb]⟩
        · exact ⟨0, f, rfl, by omega, by omega, by rw [he, hb]⟩
        · exact ⟨d + 1, f', by simpa using hget, by omega, hb, he⟩
      · rintro ⟨d, f', hget, ha, hb, he⟩
        cases d with
        | zero =>
            have hf : f' = f := by simpa using hget.symm
            subst hf
            interval_cases b
            · exact Or.inl ⟨⟨by omega, rfl⟩, he⟩
            · exact Or.inr (Or.inl ⟨⟨by omega, rfl⟩, he⟩)
            · exact Or.inr (Or.inr (Or.inl ⟨⟨by omega, rfl⟩, he⟩))
        | succ d' =>
            exact Or.inr (Or.inr (Or.inr ⟨d', f', by simpa using hget, by omega, hb, he⟩))

theorem pos_bound_occListFrom {i : ℕ} {fs : List (ℤ × ℤ × ℤ)} {a b : ℕ} :
    (a, b) ∈ (occListFrom i fs).map (fun oc => oc.1) → i ≤ a := by
  intro hq
  rcases List.mem_map.1 hq with ⟨⟨⟨a', b'⟩, e⟩, hmem, hfst⟩
  have ha : a' = a := congrArg Prod.fst hfst
  subst ha
  rcases mem_occListFrom.1 hmem with ⟨d, f, _, hp, _, _⟩
  omega

theorem nodup_pos_occListFrom (i : ℕ) (fs : List (ℤ × ℤ × ℤ)) :
    ((occListFrom i fs).map (fun oc => oc.1)).Nodup := by
  induction fs generalizing i with
  | nil => simp [occListFrom]
  | cons f rest ih =>
      simp only [occListFrom, List.map_cons]
      refine List.nodup_cons.2 ⟨?_, List.nodup_cons.2 ⟨?_, List.nodup_cons.2 ⟨?_, ih (i + 1)⟩⟩⟩
      · intro h
        rcases List.mem_cons.1 h with h | h
        · exact absurd h (by simp)
        · rcases List.mem_cons.1 h with h | h
          · exact absurd h (by simp)
          · have := pos_bound_occListFrom h
            omega
      · intro h
        rcases List.mem_cons.1 h with h | h
        · exact absurd h (by simp)
        · have := pos_bound_occListFrom h
          omega
      · intro h
        have := pos_bound_occListFrom h
        omega

/-! ## Claim C9: the face_face_connectivity setter -/

/-- Claim C9 (code_bug evaluation): assigning through the face_face_connectivity
setter is claimed to update the stored adjacency so a subsequent read returns
the assigned value; the setter body only rebinds its local variable, so the
grid is unchanged and a read still returns the prior (absent) adjacency. -/
theorem faceFaceSetterIsNoOp :
    (∀ (g : UGrid) (a : List (List ℤ)), set_face_face_connectivity g a = g) ∧
    (set_face_face_connectivity
        { nodes := [], faces := some [(0, 1, 2)], edges := none,
          face_face_connectivity := none, data := [] }
        [[-1, -1, -1]]).face_face_connectivity = none ∧
    (set_face_face_connectivity
        { nodes := [], faces := some [(0, 1, 2)], edges := none,
          face_face_connectivity := none, data := [] }
        [[-1, -1, -1]]).face_face_connectivity ≠ some [[-1, -1, -1]] := by
  refine ⟨fun g a => rfl, rfl, by simp [set_face_face_connectivity]⟩

/-! ## Claim C10: the nodes deleter -/

/-- Claim C10: deleting the nodes property empties the node set and resets
edges and faces to absent, while the stored face-face adjacency and the
data-field collection are left unchanged. -/
theorem deleteNodesFrame (g : UGrid) :
    (delete_nodes g).nodes = [] ∧
    (delete_nodes g).edges = none ∧
    (delete_nodes g).faces = none ∧
    (delete_nodes g).face_face_connectivity = g.face_face_connectivity ∧
    (delete_nodes g).data = g.data :=
  ⟨rfl, rfl, rfl, rfl, rfl⟩

/-! ## Claim C6: point location -/

/-- Claim C6 (code_bug evaluation): locate_face_simple is claimed to scan the
faces and return the first containing face or None; on any mesh with a
non-empty faces array the first loop iteration evaluates the undefined name
point_in_poly (the import is point_in_tri), raising a NameError, so the call
errors instead of returning a face index or None. -/
theorem locateFaceRaisesNameError :
    locate_face_simple
      { nodes := [(0, 0), (1, 0), (0, 1)], faces := some [(0, 1, 2)], edges := none,
        face_face_connectivity := none, data := [] }
      (1/10, 1/10) = .error () :=
  rfl

/-! ## Helper lemmas for build_edges -/

theorem mem_edgeFold (l : List (ℤ × ℤ)) :
    ∀ (s : List (ℤ × ℤ)) (x : ℤ × ℤ),
      (x ∈ l.foldl (fun s e => if e ∈ s then s else s ++ [e]) s ↔ x ∈ s ∨ x ∈ l) := by
  induction l with
  | nil => intro s x; simp
  | cons a t ih =>
      intro s x
      simp only [List.foldl_cons]
      by_cases h : a ∈ s
      · rw [if_pos h, ih]
        constructor
        · rintro (hx | hx)
          · exact Or.inl hx
          · exact Or.inr (List.mem_cons_of_mem _ hx)
        · rintro (hx | hx)
          · exact Or.inl hx
          · rcases List.mem_cons.1 hx with rfl | hx
            · exact Or.inl h
            · exact Or.inr hx
      · rw [if_neg h, ih]
        constructor
        · rintro (hx | hx)
          · rcases List.mem_append.1 hx with hx | hx
            · exact Or.inl hx
            · rcases List.mem_singleton.1 hx with rfl
              exact Or.inr (List.mem_cons_self _ _)
          · exact Or.inr (List.mem_cons_of_mem _ hx)
        · rintro (hx | hx)
          · exact Or.inl (List.mem_append.2 (Or.inl hx))
          · rcases List.mem_cons.1 hx with rfl | hx
            · exact Or.inl (List.mem_append.2 (Or.inr (List.mem_singleton.2 rfl)))
            · exact Or.inr hx

theorem nodup_edgeFold (l : List (ℤ × ℤ)) :
    ∀ s : List (ℤ × ℤ), s.Nodup → (l.foldl (fun s e => if e ∈ s then s else s ++ [e]) s).Nodup := by
  induction l with
  | nil => intro s hs; simpa
  | cons a t ih =>
      intro s hs
      simp only [List.foldl_cons]
      by_cases h : a ∈ s
      · rw [if_pos h]; exact ih s hs
      · rw [if_neg h]
        refine ih _ (List.nodup_append.2 ⟨hs, List.nodup_singleton a, ?_⟩)
        intro x hx hx'
        rcases List.mem_singleton.1 hx' with rfl
        exact h hx

/-! ## Claim C2: build_edges -/

/-- Claim C2: for every faces array, build_edges yields, as a set, exactly the
canonical face-local edges (for each face and each cyclic local position, the
sorted pair of the two incident node indices); every stored pair is sorted
ascending, and no two rows of the result are equal. -/
theorem buildEdgesSpec (faces : List (ℤ × ℤ × ℤ)) :
    (∀ e, e ∈ build_edges faces ↔
        ∃ i j f, faces.get? i = some f ∧ j < 3 ∧ e = canonEdge (faceEdge f j)) ∧
    (∀ e ∈ build_edges faces, e.1 ≤ e.2) ∧
    (build_edges faces).Nodup := by
  have hrw : build_edges faces =
      ((occList faces).map (fun oc => oc.2)).foldl
        (fun s e => if e ∈ s then s else s ++ [e]) [] := by
    rw [build_edges, List.foldl_map]
  have hmem : ∀ e, e ∈ build_edges faces ↔
      ∃ i j f, faces.get? i = some f ∧ j < 3 ∧ e = canonEdge (faceEdge f j) := by
    intro e
    rw [hrw, mem_edgeFold]
    simp only [List.not_mem_nil, false_or, List.mem_map]
    constructor
    · rintro ⟨⟨⟨a, b⟩, e'⟩, hmem, rfl⟩
      rcases mem_occListFrom.1 hmem with ⟨d, f, hget, _, hb, he⟩
      exact ⟨d, b, f, hget, hb, he⟩
    · rintro ⟨i, j, f, hget, hj, rfl⟩
      exact ⟨((i, j), canonEdge (faceEdge f j)),
        mem_occListFrom.2 ⟨i, f, hget, by omega, hj, rfl⟩, rfl⟩
  refine ⟨hmem, ?_, ?_⟩
  · intro e he
    rcases (hmem e).1 he with ⟨i, j, f, _, _, rfl⟩
    exact canonEdge_le _
  · rw [hrw]
    exact nodup_edgeFold _ [] List.nodup_nil

/-! ## Claim C3: start_index and flag normalization -/

/-- Pointwise congruence for map, over the members of the list. -/
theorem map_congr_mem {α β : Type _} {l : List α} {f g : α → β}
    (h : ∀ a ∈ l, f a = g a) : l.map f = l.map g :=
  List.map_congr_left h

/-- Claim C3: with declared integer start_index s and at most one declared
flag value f, a stored entry equal to f is preserved exactly and every other
entry is shifted to e - s when s is at least 1; with s = 0 (also the default
for a missing attribute) entries are unchanged; consequently a connectivity
array declared 1-based loads to the same 0-based indices as the same logical
array declared 0-based, provided no shifted entry collides with the flag. -/
theorem startIndexNormalization (s : ℤ) (f : ℤ) (arr : List ℤ) :
    (1 ≤ s →
      apply_start_index s (some f) arr = arr.map (fun e => if e = f then f else e - s) ∧
      apply_start_index s none arr = arr.map (fun e => e - s)) ∧
    (s ≤ 0 → ∀ fl : Option ℤ, apply_start_index s fl arr = arr) ∧
    ((∀ e ∈ arr, e ≠ f → e + 1 ≠ f) →
      apply_start_index 1 (some f) (arr.map (fun e => if e = f then f else e + 1)) = arr ∧
      apply_start_index 0 (some f) arr = arr) := by
  refine ⟨?_, ?_, ?_⟩
  · intro hs
    constructor
    · rw [apply_start_index, if_pos hs, List.map_map]
      refine map_congr_mem (fun e _ => ?_)
      by_cases he : e = f
      · simp [Function.comp, he]
      · have hne : ¬(e - s = f - s) := fun hcontra => he (by omega)
        simp [Function.comp, he, hne]
    · rw [apply_start_index, if_pos hs]
  · intro hs fl
    have : ¬(1 ≤ s) := by omega
    cases fl <;> rw [apply_start_index, if_neg this]
  · intro hcoll
    constructor
    · rw [apply_start_index, if_pos le_rfl, List.map_map, List.map_map]
      refine Eq.trans (map_congr_mem (fun e he => ?_)) (List.map_id arr)
      simp only [Function.comp_apply, id_eq]
      by_cases hef : e = f
      · rw [if_pos hef, if_pos (by rfl)]
        exact hef.symm
      · have h1 : e + 1 ≠ f := hcoll e he hef
        rw [if_neg hef, if_neg (by omega : ¬(e + 1 - 1 = f - 1))]
        omega
    · rw [apply_start_index, if_neg (by omega)]

/-- Witness for startIndexNormalization: the round-trip clause at a concrete
1-based array with flag value -999. -/
theorem startIndexNormalizationWitness :
    apply_start_index 1 (some (-999)) ([0, 1, -999].map (fun e => if e = -999 then -999 else e + 1)) =
      [0, 1, -999] :=
  ((startIndexNormalization 1 (-999) [0, 1, -999]).2.2 (by decide)).1

/-! ## Helper lemmas for the data-field dict -/

theorem slookup_dictInsert_self (k : String) (v : DataSet) (l : List (String × DataSet)) :
    slookup k (dictInsert k v l) = some v := by
  induction l with
  | nil => simp [dictInsert, slookup]
  | cons p rest ih =>
      rcases p with ⟨a, w⟩
      by_cases h : a = k
      · rw [dictInsert, if_pos h, slookup, if_pos h]
      · rw [dictInsert, if_neg h, slookup, if_neg h]
        exact ih

theorem slookup_dictInsert_other (k k' : String) (v : DataSet) (l : List (String × DataSet))
    (h : k' ≠ k) : slookup k' (dictInsert k v l) = slookup k' l := by
  induction l with
  | nil => simp [dictInsert, slookup, Ne.symm h]
  | cons p rest ih =>
      rcases p with ⟨a, w⟩
      by_cases ha : a = k
      · have hak' : ¬(a = k') := by
          intro hc
          apply h
          rw [← hc]
          exact ha
        simp [dictInsert, ha, slookup, hak', Ne.symm h]
      · by_cases ha' : a = k'
        · simp [dictInsert, ha, slookup, ha', h]
        · simp [dictInsert, ha, slookup, ha', ih]

/-! ## Claim C5: add_data size guard -/

/-- Claim C5: when the element array for the declared location is present,
add_data errors on a length mismatch (leaving the grid unchanged, since the
raise precedes the mutation and an error result carries no new state), and on
a match stores the field under its name, leaving every other component and
every other key unchanged. -/
theorem addDataSizeGuard (g : UGrid) (ds : DataSet) (n : ℕ)
    (h : elementCount g ds.location = some n) :
    (ds.data.length ≠ n → add_data g ds = .error ()) ∧
    (ds.data.length = n → ∃ g', add_data g ds = .ok g' ∧
        g'.nodes = g.nodes ∧ g'.faces = g.faces ∧ g'.edges = g.edges ∧
        g'.face_face_connectivity = g.face_face_connectivity ∧
        slookup ds.name g'.data = some ds ∧
        ∀ k, k ≠ ds.name → slookup k g'.data = slookup k g.data) := by
  constructor
  · intro hne
    rw [add_data, h]
    simp [hne]
  · intro heq
    refine ⟨{ g with data := dictInsert ds.name ds g.data }, ?_, rfl, rfl, rfl, rfl,
      slookup_dictInsert_self _ _ _, fun k hk => slookup_dictInsert_other _ _ _ _ hk⟩
    rw [add_data, h]
    simp [heq]

/-- Witness for addDataSizeGuard: a face-located field of the wrong length on
a one-node grid is rejected. -/
theorem addDataSizeGuardWitness :
    add_data
      { nodes := [(0, 0)], faces := none, edges := none,
        face_face_connectivity := none, data := [] }
      { name := "depth", location := Location.node, data := [5, 6], attributes := [] } =
      .error () :=
  (addDataSizeGuard
    { nodes := [(0, 0)], faces := none, edges := none,
      face_face_connectivity := none, data := [] }
    { name := "depth", location := Location.node, data := [5, 6], attributes := [] }
    1 rfl).1 (by decide)

/-! ## Helper lemmas for the transpose fixup -/

theorem transposeArr_nil : transposeArr [] = [] := rfl

theorem transposeArr_cons_length {r : List ℤ} {t : List (List ℤ)} :
    (transposeArr (r :: t)).length = r.length := by
  simp [transposeArr]

theorem list_ext_getD {α : Type _} (d : α) : ∀ (l₁ l₂ : List α), l₁.length = l₂.length →
    (∀ i, i < l₁.length → l₁.getD i d = l₂.getD i d) → l₁ = l₂ := by
  intro l₁
  induction l₁ with
  | nil =>
      intro l₂ h _
      cases l₂
      · rfl
      · simp at h
  | cons a t ih =>
      intro l₂ h hd
      cases l₂ with
      | nil => simp at h
      | cons b t₂ =>
          have h0 : a = b := by simpa using hd 0 (by simp)
          have ht : t = t₂ := by
            refine ih t₂ (by simpa using h) ?_
            intro i hi
            simpa using hd (i + 1) (by simpa using Nat.succ_lt_succ hi)
          rw [h0, ht]

theorem getD_map_range {α : Type _} (n : ℕ) (f : ℕ → α) (d : α) (i : ℕ) (h : i < n) :
    ((List.range n).map f).getD i d = f i := by
  rw [List.getD_eq_getElem _ _ (by simpa), List.getElem_map, List.getElem_range]

theorem getD_map {α β : Type _} (f : α → β) (l : List α) (d' : α) (d : β) (j : ℕ)
    (h : j < l.length) : (l.map f).getD j d = f (l.getD j d') := by
  rw [List.getD_eq_getElem _ _ (by simpa), List.getElem_map, List.getD_eq_getElem _ _ h]

theorem getD_mem {α : Type _} : ∀ (l : List α) (d : α) (i : ℕ), i < l.length → l.getD i d ∈ l := by
  intro l
  induction l with
  | nil =>
      intro d i h
      simp at h
  | cons a t ih =>
      intro d i h
      cases i with
      | zero => exact List.mem_cons_self _ _
      | succ i' =>
          exact List.mem_cons_of_mem _ (ih d i' (by simpa using Nat.lt_of_succ_lt_succ h))

theorem transposeArr_transposeArr (k : ℕ) (L : List (List ℤ)) (hk : 0 < k)
    (hne : L ≠ []) (hrows : ∀ r ∈ L, r.length = k) :
    transposeArr (transposeArr L) = L := by
  rcases L with _ | ⟨r, t⟩
  · exact absurd rfl hne
  have hr : r.length = k := hrows r (List.mem_cons_self _ _)
  have hT : transposeArr (r :: t) =
      (List.range k).map (fun j => (r :: t).map (fun row => row.getD j 0)) := by
    rw [transposeArr]
    show (List.range r.length).map _ = _
    rw [hr]
  obtain ⟨k', rfl⟩ : ∃ k', k = k' + 1 := ⟨k - 1, by omega⟩
  have hhead : (transposeArr (r :: t)).headD [] = (r :: t).map (fun row => row.getD 0 0) := by
    rw [hT, List.range_succ_eq_map, List.map_cons]
    rfl
  have houter : transposeArr (transposeArr (r :: t)) =
      (List.range (r :: t).length).map
        (fun i => (transposeArr (r :: t)).map (fun row => row.getD i 0)) := by
    rw [transposeArr, hhead, List.length_map]
  rw [houter]
  apply list_ext_getD ([] : List ℤ)
  · simp
  · intro i hi0
    have hi : i < (r :: t).length := by simpa using hi0
    rw [getD_map_range _ _ _ _ (by simpa using hi)]
    apply list_ext_getD (0 : ℤ)
    · rw [List.length_map, hT, List.length_map, List.length_range]
      exact (hrows _ (getD_mem _ _ _ hi)).symm
    · intro j hj0
      have hjk : j < k' + 1 := by
        rw [List.length_map, hT, List.length_map, List.length_range] at hj0
        exact hj0
      have hTlen : j < (transposeArr (r :: t)).length := by
        rw [hT, List.length_map, List.length_range]
        exact hjk
      rw [getD_map (fun row => row.getD i 0) _ ([] : List ℤ) 0 j hTlen]
      have hTj : (transposeArr (r :: t)).getD j ([] : List ℤ) =
          (r :: t).map (fun row => row.getD j 0) := by
        rw [hT, getD_map_range _ _ _ _ hjk]
      rw [hTj, getD_map (fun row => row.getD j 0) _ ([] : List ℤ) 0 i hi]

/-! ## Claim C7: transpose detection on load -/

/-- Claim C7 counterexample: with expected minor count 3 and a 3 x 3 stored
array, the two storage layouts of the same logical array load differently;
the array stored untransposed (count rows of width 3, count = 3) also has
first dimension 3 and is transposed by the loader, while the array stored
transposed loads back to the logical array. -/
theorem loadConnectivityCountEqArityCex :
    load_connectivity 3 (transposeArr [[0, 1, 2], [3, 4, 5], [6, 7, 8]]) =
      [[0, 1, 2], [3, 4, 5], [6, 7, 8]] ∧
    load_connectivity 3 [[0, 1, 2], [3, 4, 5], [6, 7, 8]] ≠
      [[0, 1, 2], [3, 4, 5], [6, 7, 8]] := by
  decide

/-- Claim C7 (amended): the loader transposes a stored 2-D connectivity array
exactly when its first dimension equals the expected minor count k, so that,
for every element count other than k, an array stored as (k, count) loads to
results identical to the same logical array stored as (count, k); when
count = k both layouts are transposed, so the two loads agree only for
symmetric arrays. -/
theorem loadConnectivityTranspose (k count : ℕ) (L : List (List ℤ))
    (hk : k = 2 ∨ k = 3) (hlen : L.length = count) (hrows : ∀ r ∈ L, r.length = k)
    (hne : count ≠ k) :
    load_connectivity k L = L ∧ load_connectivity k (transposeArr L) = L := by
  constructor
  · rw [load_connectivity, if_neg (by omega)]
  · rcases L with _ | ⟨r, t⟩
    · rw [transposeArr_nil, load_connectivity, if_neg (by simp; omega)]
    · have hr : r.length = k := hrows r (List.mem_cons_self _ _)
      rw [load_connectivity, if_pos (by rw [transposeArr_cons_length, hr])]
      exact transposeArr_transposeArr k (r :: t) (by omega) (by simp)
        hrows

/-- Witness for loadConnectivityTranspose: a (2 x 3) face-node array and its
(3 x 2) transposed storage load to the same result. -/
theorem loadConnectivityTransposeWitness :
    load_connectivity 3 [[0, 1, 2], [3, 4, 5]] = [[0, 1, 2], [3, 4, 5]] ∧
    load_connectivity 3 (transposeArr [[0, 1, 2], [3, 4, 5]]) = [[0, 1, 2], [3, 4, 5]] :=
  loadConnectivityTranspose 3 2 [[0, 1, 2], [3, 4, 5]] (Or.inr rfl) rfl (by decide) (by decide)

/-! ## Helper lemmas for mesh resolution -/

theorem find_go_ok_of_no_raise (nc : List NCVar) :
    ∀ vars : List NCVar,
      (∀ v ∈ vars, is_valid_mesh_raises nc v.vname = false) →
      find_mesh_names_go nc vars =
        .ok ((vars.filter (fun v => mesh_predicateB nc v.vname)).map (fun v => v.vname)) := by
  intro vars
  induction vars with
  | nil => intro _; rfl
  | cons v rest ih =>
      intro hno
      have hv := hno v (List.mem_cons_self _ _)
      rcases h : is_valid_mesh nc v.vname with e | b
      · rw [is_valid_mesh_raises, h] at hv
        simp at hv
      · have hpred : mesh_predicateB nc v.vname = b := by
          rw [mesh_predicateB, h]
          cases b <;> rfl
        rw [find_mesh_names_go, h, ih (fun w hw => hno w (List.mem_cons_of_mem _ hw))]
        cases b <;> simp [List.filter_cons, hpred]

theorem find_go_ok_characterize (nc : List NCVar) :
    ∀ (vars : List NCVar) (l : List String),
      find_mesh_names_go nc vars = .ok l →
      l = (vars.filter (fun v => mesh_predicateB nc v.vname)).map (fun v => v.vname) := by
  intro vars
  induction vars with
  | nil =>
      intro l hl
      rw [find_mesh_names_go] at hl
      cases hl
      rfl
  | cons v rest ih =>
      intro l hl
      rw [find_mesh_names_go] at hl
      rcases h : is_valid_mesh nc v.vname with e | b <;> rw [h] at hl
      · cases hl
      · rcases h2 : find_mesh_names_go nc rest with e2 | tl <;> rw [h2] at hl
        · cases hl
        · cases hl
          have hpred : mesh_predicateB nc v.vname = b := by
            rw [mesh_predicateB, h]
            cases b <;> rfl
          rw [ih tl h2]
          cases b <;> simp [List.filter_cons, hpred]

/-! ## Claim C4: mesh resolution -/

/-- Claim C4 counterexample: a dataset with one variable satisfying the mesh
predicate and a second variable whose cf_role is mesh_topology but whose
topology_dimension is not int-coercible; exactly one variable satisfies the
predicate, yet loading with mesh_name omitted fails, because the uncaught
ValueError from int() propagates out of find_mesh_names. -/
theorem meshResolutionCex :
    (List.countP
        (fun v => mesh_predicateB
          [NCVar.mk "A" [("cf_role", AttrVal.str "mesh_topology"), ("topology_dimension", AttrVal.int 2)] [],
           NCVar.mk "B" [("cf_role", AttrVal.str "mesh_topology"), ("topology_dimension", AttrVal.str "x")] []]
          v.vname)
        [NCVar.mk "A" [("cf_role", AttrVal.str "mesh_topology"), ("topology_dimension", AttrVal.int 2)] [],
         NCVar.mk "B" [("cf_role", AttrVal.str "mesh_topology"), ("topology_dimension", AttrVal.str "x")] []]) = 1 ∧
    resolve_mesh
      [NCVar.mk "A" [("cf_role", AttrVal.str "mesh_topology"), ("topology_dimension", AttrVal.int 2)] [],
       NCVar.mk "B" [("cf_role", AttrVal.str "mesh_topology"), ("topology_dimension", AttrVal.str "x")] []]
      none = .error () := by
  constructor
  · rfl
  · rfl

/-- Claim C4 (amended): load with an explicit mesh_name succeeds exactly when
the name satisfies the mesh predicate (cf_role stripping to mesh_topology and
topology_dimension int-coercible to 2; a missing attribute makes the predicate
false without error); load with mesh_name omitted fails whenever the number of
variables satisfying the predicate differs from 1, and succeeds selecting the
unique satisfying variable provided evaluating the predicate raises on no
variable (a variable whose cf_role passes but whose topology_dimension is not
int-coercible raises an uncaught ValueError, making the load fail even when
another variable uniquely satisfies the predicate). -/
theorem meshResolution (nc : List NCVar) :
    (∀ name, mesh_predicateB nc name = true → resolve_mesh nc (some name) = .ok name) ∧
    (∀ name, mesh_predicateB nc name = false → resolve_mesh nc (some name) = .error ()) ∧
    (nc.countP (fun v => mesh_predicateB nc v.vname) ≠ 1 → resolve_mesh nc none = .error ()) ∧
    ((∀ v ∈ nc, is_valid_mesh_raises nc v.vname = false) →
      ∀ (m : String) (v : NCVar), v ∈ nc → v.vname = m → mesh_predicateB nc m = true →
        nc.countP (fun v2 => mesh_predicateB nc v2.vname) = 1 →
        resolve_mesh nc none = .ok m) := by
  refine ⟨?_, ?_, ?_, ?_⟩
  · intro name hp
    rcases h : is_valid_mesh nc name with e | b
    · rw [mesh_predicateB, h] at hp
      simp at hp
    · rw [mesh_predicateB, h] at hp
      cases b
      · simp at hp
      · rw [resolve_mesh, h]
  · intro name hp
    rcases h : is_valid_mesh nc name with e | b
    · rw [resolve_mesh, h]
    · rw [mesh_predicateB, h] at hp
      cases b
      · rw [resolve_mesh, h]
      · simp at hp
  · intro hcount
    rcases h : find_mesh_names nc with e | l
    · rw [resolve_mesh, h]
    · have hl := find_go_ok_characterize nc nc l h
      have hlen : l.length = nc.countP (fun v => mesh_predicateB nc v.vname) := by
        rw [hl, List.length_map, ← List.countP_eq_length_filter]
      rcases l with _ | ⟨m, _ | ⟨m2, tl⟩⟩
      · rw [resolve_mesh, h]
      · exfalso
        apply hcount
        rw [← hlen]
        rfl
      · rw [resolve_mesh, h]
  · intro hno m v hv hname hpred hcount
    have h := find_go_ok_of_no_raise nc nc hno
    have hl : find_mesh_names nc =
        .ok ((nc.filter (fun w => mesh_predicateB nc w.vname)).map (fun w => w.vname)) := h
    have hlen : ((nc.filter (fun w => mesh_predicateB nc w.vname)).map (fun w => w.vname)).length = 1 := by
      rw [List.length_map, ← List.countP_eq_length_filter]
      exact hcount
    have hvf : v ∈ nc.filter (fun w => mesh_predicateB nc w.vname) := by
      rw [List.mem_filter]
      exact ⟨hv, by rw [hname]; exact hpred⟩
    have hmem : m ∈ (nc.filter (fun w => mesh_predicateB nc w.vname)).map (fun w => w.vname) := by
      rw [List.mem_map]
      exact ⟨v, hvf, hname⟩
    rcases hsing : (nc.filter (fun w => mesh_predicateB nc w.vname)).map (fun w => w.vname)
      with _ | ⟨m1, tl⟩
    · rw [hsing] at hmem
      cases hmem
    · rw [hsing] at hlen hmem
      have htl : tl = [] := by
        have := hlen
        simp at this
        exact this
      subst htl
      rcases List.mem_singleton.1 hmem with rfl
      rw [resolve_mesh, hl, hsing]

/-- Witness for meshResolution: a dataset with one conforming mesh variable
and one unrelated variable resolves to the conforming name. -/
theorem meshResolutionWitness :
    resolve_mesh
      [NCVar.mk "mesh" [("cf_role", AttrVal.str "mesh_topology"), ("topology_dimension", AttrVal.str "2")] [],
       NCVar.mk "depth" [("mesh", AttrVal.str "mesh"), ("location", AttrVal.str "node")] []]
      none = .ok "mesh" :=
  (meshResolution
      [NCVar.mk "mesh" [("cf_role", AttrVal.str "mesh_topology"), ("topology_dimension", AttrVal.str "2")] [],
       NCVar.mk "depth" [("mesh", AttrVal.str "mesh"), ("location", AttrVal.str "node")] []]).2.2.2
    (by decide) "mesh"
    (NCVar.mk "mesh" [("cf_role", AttrVal.str "mesh_topology"), ("topology_dimension", AttrVal.str "2")] [])
    (List.mem_cons_self _ _) rfl (by decide) (by decide)

/-! ## Helper lemmas for data-field naming -/

theorem head_dropWhile {α : Type _} (p : α → Bool) (l : List α) :
    ∀ c, (l.dropWhile p).head? = some c → p c = false := by
  induction l with
  | nil => intro c h; simp at h
  | cons a t ih =>
      intro c h
      by_cases hp : p a
      · rw [List.dropWhile_cons, if_pos hp] at h
        exact ih c h
      · rw [List.dropWhile_cons, if_neg hp] at h
        rcases Option.some.inj h with rfl
        exact Bool.of_not_eq_true hp

/-! ## Claim C8: data-field naming and attribute carry-through -/

/-- Claim C8 counterexample: the loaded field name is the variable name with
ALL leading characters drawn from the character set of the mesh name removed
(Python lstrip semantics), not the mesh-name prefix: for mesh "mesh" and
variable "meshes_depth" the claim prescribes "es_depth" but the code produces
"depth"; and the attribute filter drops every attribute whose name is a
substring of "locationcoordinates" (the operand is two juxtaposed string
literals, not a tuple), so a "coordinates" attribute is dropped although the
claim says only the location marker is removed. -/
theorem dataFieldNameAndAttrsCex :
    fieldName "mesh" "meshes_depth" = "depth" ∧
    specFieldName "mesh" "meshes_depth" = "es_depth" ∧
    ("depth" : String) ≠ "es_depth" ∧
    fieldAttrs [("coordinates", AttrVal.str "lon lat")] = [] ∧
    specFieldAttrs [("coordinates", AttrVal.str "lon lat")] =
      [("coordinates", AttrVal.str "lon lat")] := by
  refine ⟨by decide, by decide, by decide, by decide, by decide⟩

/-- Claim C8 (amended): for a qualifying data-field variable (location
attribute present and parseable, mesh attribute equal to the selected mesh
name), the loaded field name is the variable name with all leading characters
drawn from the character set of the mesh name removed and then all leading
underscores removed (characterized below by the maximal-run decomposition),
and the loaded attributes are exactly the variable attributes whose names are
not substrings of the string "locationcoordinates"; location and data are
carried through. -/
theorem dataFieldNameAndAttrs (m : String) (v : NCVar) (lv : AttrVal) (loc : Location)
    (hmesh : getAttr v "mesh" = some (AttrVal.str m))
    (hl : getAttr v "location" = some lv) (hloc : locOf lv = some loc) :
    (∃ d1 d2, v.vname.data = d1 ++ (d2 ++ (mkField m v loc).name.data) ∧
       (∀ c ∈ d1, c ∈ m.data) ∧ (∀ c ∈ d2, c = '_') ∧
       (∀ c, (d2 ++ (mkField m v loc).name.data).head? = some c → c ∉ m.data) ∧
       (∀ c, (mkField m v loc).name.data.head? = some c → c ≠ '_')) ∧
    (∀ p, p ∈ (mkField m v loc).attributes ↔
       p ∈ v.attrs ∧ isSubstring p.1.data "locationcoordinates".data = false) ∧
    (mkField m v loc).location = loc ∧ (mkField m v loc).data = v.vdata := by
  refine ⟨?_, ?_, rfl, rfl⟩
  · have hname : (mkField m v loc).name.data =
        pyLstrip (pyLstrip v.vname.data m.data) ['_'] := rfl
    refine ⟨v.vname.data.takeWhile (fun c => decide (c ∈ m.data)),
      (pyLstrip v.vname.data m.data).takeWhile (fun c => decide (c ∈ ['_'])),
      ?_, ?_, ?_, ?_, ?_⟩
    · rw [hname]
      simp only [pyLstrip]
      rw [List.takeWhile_append_dropWhile, List.takeWhile_append_dropWhile]
    · intro c hc
      have := List.mem_takeWhile_imp hc
      exact of_decide_eq_true this
    · intro c hc
      have := List.mem_takeWhile_imp hc
      have := of_decide_eq_true this
      simpa using this
    · intro c hc
      have hr : (pyLstrip v.vname.data m.data).takeWhile (fun c => decide (c ∈ ['_'])) ++
          (mkField m v loc).name.data =
          List.dropWhile (fun c => decide (c ∈ m.data)) v.vname.data := by
        rw [hname]
        simp only [pyLstrip]
        rw [List.takeWhile_append_dropWhile]
      rw [hr] at hc
      have := head_dropWhile (fun c => decide (c ∈ m.data)) v.vname.data c hc
      exact of_decide_eq_false this
    · intro c hc
      rw [hname] at hc
      have := head_dropWhile (fun c => decide (c ∈ ['_'])) (pyLstrip v.vname.data m.data) c hc
      have h2 := of_decide_eq_false this
      simpa using h2
  · intro p
    rw [mkField]
    show p ∈ fieldAttrs v.attrs ↔ _
    rw [fieldAttrs, List.mem_filter]
    constructor
    · rintro ⟨hmem, hfilt⟩
      exact ⟨hmem, by simpa using hfilt⟩
    · rintro ⟨hmem, hfilt⟩
      exact ⟨hmem, by simpa using hfilt⟩

/-- Witness for dataFieldNameAndAttrs: the name decomposition at a concrete
qualifying variable mesh_depth on mesh "mesh". -/
theorem dataFieldNameAndAttrsWitness :
    ∃ d1 d2, ("mesh_depth" : String).data = d1 ++ (d2 ++
        (mkField "mesh"
          (NCVar.mk "mesh_depth"
            [("location", AttrVal.str "node"), ("mesh", AttrVal.str "mesh"),
             ("units", AttrVal.str "m")] [])
          Location.node).name.data) ∧
      (∀ c ∈ d1, c ∈ ("mesh" : String).data) ∧ (∀ c ∈ d2, c = '_') ∧
      (∀ c, (d2 ++
        (mkField "mesh"
          (NCVar.mk "mesh_depth"
            [("location", AttrVal.str "node"), ("mesh", AttrVal.str "mesh"),
             ("units", AttrVal.str "m")] [])
          Location.node).name.data).head? = some c → c ∉ ("mesh" : String).data) ∧
      (∀ c, (mkField "mesh"
          (NCVar.mk "mesh_depth"
            [("location", AttrVal.str "node"), ("mesh", AttrVal.str "mesh"),
             ("units", AttrVal.str "m")] [])
          Location.node).name.data.head? = some c → c ≠ '_') :=
  (dataFieldNameAndAttrs "mesh"
    (NCVar.mk "mesh_depth"
      [("location", AttrVal.str "node"), ("mesh", AttrVal.str "mesh"),
       ("units", AttrVal.str "m")] [])
    (AttrVal.str "node") Location.node rfl rfl rfl).1

/-! ## Helper lemmas for the face-face adjacency invariant -/

theorem get?_some_lt {α : Type _} : ∀ (l : List α) (i : ℕ) (f : α), l.get? i = some f → i < l.length := by
  intro l
  induction l with
  | nil => intro i f h; simp at h
  | cons a t ih =>
      intro i f h
      cases i with
      | zero => simp
      | succ i' =>
          have := ih i' f (by simpa using h)
          simpa using Nat.succ_lt_succ this

theorem getD_of_get? {α : Type _} : ∀ (l : List α) (d : α) (i : ℕ) (f : α),
    l.get? i = some f → l.getD i d = f := by
  intro l
  induction l with
  | nil => intro d i f h; simp at h
  | cons a t ih =>
      intro d i f h
      cases i with
      | zero =>
          simp at h
          simpa using h
      | succ i' => simpa using ih d i' f (by simpa using h)

theorem get?_of_lt_getD {α : Type _} : ∀ (l : List α) (d : α) (i : ℕ),
    i < l.length → l.get? i = some (l.getD i d) := by
  intro l
  induction l with
  | nil => intro d i h; simp at h
  | cons a t ih =>
      intro d i h
      cases i with
      | zero => rfl
      | succ i' => simpa using ih d i' (by simpa using Nat.lt_of_succ_lt_succ h)

theorem alookup_mem : ∀ {l : List ((ℤ × ℤ) × (ℕ × ℕ))} {e : ℤ × ℤ} {q : ℕ × ℕ},
    alookup l e = some q → (e, q) ∈ l := by
  intro l
  induction l with
  | nil => intro e q h; simp [alookup] at h
  | cons p rest ih =>
      intro e q h
      rcases p with ⟨k, v⟩
      rw [alookup] at h
      by_cases hk : k = e
      · rw [if_pos hk] at h
        rcases Option.some.inj h with rfl
        subst hk
        exact List.mem_cons_self _ _
      · rw [if_neg hk] at h
        exact List.mem_cons_of_mem _ (ih h)

theorem alookup_none_not_mem : ∀ {l : List ((ℤ × ℤ) × (ℕ × ℕ))} {e : ℤ × ℤ},
    alookup l e = none → ∀ q, (e, q) ∉ l := by
  intro l
  induction l with
  | nil => intro e _ q h; simp at h
  | cons p rest ih =>
      intro e h q hmem
      rcases p with ⟨k, v⟩
      rw [alookup] at h
      by_cases hk : k = e
      · rw [if_pos hk] at h
        cases h
      · rw [if_neg hk] at h
        rcases List.mem_cons.1 hmem with heq | hmem'
        · exact hk (congrArg Prod.fst heq).symm
        · exact ih h q hmem'

theorem nodup_fst_functional {α β : Type _} :
    ∀ {l : List (α × β)}, ((l.map (fun x => x.1)).Nodup) →
      ∀ {a : α} {b c : β}, (a, b) ∈ l → (a, c) ∈ l → b = c := by
  intro l
  induction l with
  | nil => intro _ a b c hb; simp at hb
  | cons p rest ih =>
      intro h a b c hb hc
      rcases p with ⟨k, v⟩
      rw [List.map_cons, List.nodup_cons] at h
      obtain ⟨hk, hrest⟩ := h
      rcases List.mem_cons.1 hb with hb1 | hb2
      · rcases List.mem_cons.1 hc with hc1 | hc2
        · cases hb1
          rcases Prod.mk.injEq .. ▸ hc1 with ⟨_, hcv⟩
          exact hcv.symm
        · exfalso
          apply hk
          have ha : a = k := (congrArg Prod.fst hb1)
          subst ha
          exact List.mem_map.2 ⟨(a, c), hc2, rfl⟩
      · rcases List.mem_cons.1 hc with hc1 | hc2
        · exfalso
          apply hk
          have ha : a = k := (congrArg Prod.fst hc1)
          subst ha
          exact List.mem_map.2 ⟨(a, b), hb2, rfl⟩
        · exact ih hrest hb2 hc2

theorem two_mem_countP {α : Type _} {p : α → Bool} :
    ∀ {l : List α} {x y : α}, x ∈ l → y ∈ l → x ≠ y → p x = true → p y = true →
      2 ≤ l.countP p := by
  intro l
  induction l with
  | nil => intro x y hx; simp at hx
  | cons a t ih =>
      intro x y hx hy hxy hpx hpy
      rcases List.mem_cons.1 hx with rfl | hx'
      · have hy' : y ∈ t := by
          rcases List.mem_cons.1 hy with rfl | h
          · exact absurd rfl hxy
          · exact h
        rw [List.countP_cons, if_pos hpx]
        have h1 : 0 < t.countP p := List.countP_pos_iff.2 ⟨y, hy', hpy⟩
        omega
      · rcases List.mem_cons.1 hy with rfl | hy'
        · rw [List.countP_cons, if_pos hpy]
          have h1 : 0 < t.countP p := List.countP_pos_iff.2 ⟨x, hx', hpx⟩
          omega
        · have := ih hx' hy' hxy hpx hpy
          rw [List.countP_cons]
          split <;> omega

theorem upd2_same (f : ℕ → ℕ → ℤ) (a b : ℕ) (v : ℤ) : upd2 f a b v a b = v := by
  simp [upd2]

theorem upd2_other (f : ℕ → ℕ → ℤ) (a b : ℕ) (v : ℤ) (x y : ℕ) (h : ¬(x = a ∧ y = b)) :
    upd2 f a b v x y = f x y := by
  simp [upd2, h]

theorem bfc_entry (faces : List (ℤ × ℤ × ℤ)) (i j : ℕ) (hi : i < faces.length) (hj : j < 3) :
    ((build_face_face_connectivity faces).getD i []).getD j 0 = (build_ff_state faces).ff i j := by
  have h1 : i < ((List.range faces.length).map
      (fun i => (List.range 3).map (fun j => (build_ff_state faces).ff i j))).length := by
    simpa using hi
  rw [build_face_face_connectivity, List.getD_eq_getElem _ _ h1, List.getElem_map,
    List.getElem_range]
  have h2 : j < ((List.range 3).map (fun j => (build_ff_state faces).ff i j)).length := by
    simpa using hj
  rw [List.getD_eq_getElem _ _ h2, List.getElem_map, List.getElem_range]

theorem step_good (P : List ((ℕ × ℕ) × (ℤ × ℤ))) (st : FFState) (oc : (ℕ × ℕ) × (ℤ × ℤ))
    (hG : Good P st) (hP : (P.map (fun x => x.1)).Nodup)
    (hfresh : oc.1 ∉ P.map (fun x => x.1)) : Good (P ++ [oc]) (ffStep st oc) := by
  obtain ⟨hG1, hG2, hG3, hG4⟩ := hG
  obtain ⟨⟨i, j⟩, e⟩ := oc
  have hfresh' : ∀ e', ((i, j), e') ∉ P := by
    intro e' hmem
    exact hfresh (List.mem_map.2 ⟨((i, j), e'), hmem, rfl⟩)
  rcases hlk : alookup st.pending e with _ | q
  · -- dictionary miss: the occurrence is recorded as pending
    have hstep : ffStep st ((i, j), e) =
        { ff := st.ff, pending := (e, (i, j)) :: st.pending } := by
      simp only [ffStep, hlk]
    rw [hstep]
    refine ⟨?_, ?_, ?_, ?_⟩
    · intro e' q' hmem
      rcases List.mem_cons.1 hmem with heq | hmem'
      · injection heq with ha hb
        subst ha
        subst hb
        exact ⟨List.mem_append_right _ (List.mem_singleton.2 rfl), hG3 i j hfresh'⟩
      · obtain ⟨hp1, hp2⟩ := hG1 e' q' hmem'
        exact ⟨List.mem_append_left _ hp1, hp2⟩
    · intro e' q' q'' hm1 hm2
      rcases List.mem_cons.1 hm1 with h1 | h1 <;> rcases List.mem_cons.1 hm2 with h2 | h2
      · injection h1 with ha hb
        injection h2 with hc hd
        rw [hb, hd]
      · injection h1 with ha hb
        subst ha
        exact absurd h2 (alookup_none_not_mem hlk q'')
      · injection h2 with ha hb
        subst ha
        exact absurd h1 (alookup_none_not_mem hlk q')
      · exact hG2 e' q' q'' h1 h2
    · intro a b hnot
      apply hG3
      intro e' hmem
      exact hnot e' (List.mem_append_left _ hmem)
    · intro a b hne
      obtain ⟨k, j', e', h1, h2, h3, h4, h5⟩ := hG4 a b hne
      exact ⟨k, j', e', h1, List.mem_append_left _ h2, List.mem_append_left _ h3, h4, h5⟩
  · -- dictionary hit: both adjacency slots are written and the edge removed
    obtain ⟨qa, qb⟩ := q
    have hqmem : (e, (qa, qb)) ∈ st.pending := alookup_mem hlk
    obtain ⟨hqP, hqff⟩ := hG1 e (qa, qb) hqmem
    have hq_ne : (qa, qb) ≠ (i, j) := by
      intro hc
      rw [hc] at hqP
      exact hfresh' e hqP
    have hstep : ffStep st ((i, j), e) =
        { ff := upd2 (upd2 st.ff i j (qa : ℤ)) qa qb (i : ℤ),
          pending := aremove st.pending e } := by
      simp only [ffStep, hlk]
    rw [hstep]
    have hij_ne : ¬(i = qa ∧ j = qb) := by
      rintro ⟨h1, h2⟩
      exact hq_ne (by rw [h1, h2])
    have hff_ij : upd2 (upd2 st.ff i j (qa : ℤ)) qa qb (i : ℤ) i j = (qa : ℤ) := by
      rw [upd2_other _ _ _ _ _ _ hij_ne, upd2_same]
    have hff_q : upd2 (upd2 st.ff i j (qa : ℤ)) qa qb (i : ℤ) qa qb = (i : ℤ) :=
      upd2_same _ _ _ _
    have hff_other : ∀ x y : ℕ, ¬(x = i ∧ y = j) → ¬(x = qa ∧ y = qb) →
        upd2 (upd2 st.ff i j (qa : ℤ)) qa qb (i : ℤ) x y = st.ff x y := by
      intro x y h1 h2
      rw [upd2_other _ _ _ _ _ _ h2, upd2_other _ _ _ _ _ _ h1]
    refine ⟨?_, ?_, ?_, ?_⟩
    · intro e' q' hmem
      rw [aremove, List.mem_filter] at hmem
      obtain ⟨hmem', hne'⟩ := hmem
      have hee' : e' ≠ e := by simpa using hne'
      obtain ⟨hP', hffq'⟩ := hG1 e' q' hmem'
      refine ⟨List.mem_append_left _ hP', ?_⟩
      obtain ⟨q'a, q'b⟩ := q'
      have hne_ij : ¬(q'a = i ∧ q'b = j) := by
        rintro ⟨h1, h2⟩
        subst h1
        subst h2
        exact hfresh' e' hP'
      have hne_q : ¬(q'a = qa ∧ q'b = qb) := by
        rintro ⟨h1, h2⟩
        subst h1
        subst h2
        exact hee' (nodup_fst_functional hP hP' hqP)
      show upd2 (upd2 st.ff i j (qa : ℤ)) qa qb (i : ℤ) q'a q'b = -1
      rw [hff_other _ _ hne_ij hne_q]
      exact hffq'
    · intro e' q' q'' hm1 hm2
      rw [aremove, List.mem_filter] at hm1 hm2
      exact hG2 e' q' q'' hm1.1 hm2.1
    · intro a b hnot
      have hab_ne_ij : ¬(a = i ∧ b = j) := by
        rintro ⟨h1, h2⟩
        subst h1
        subst h2
        exact hnot e (List.mem_append_right _ (List.mem_singleton.2 rfl))
      have hab_ne_q : ¬(a = qa ∧ b = qb) := by
        rintro ⟨h1, h2⟩
        subst h1
        subst h2
        exact hnot e (List.mem_append_left _ hqP)
      show upd2 (upd2 st.ff i j (qa : ℤ)) qa qb (i : ℤ) a b = -1
      rw [hff_other _ _ hab_ne_ij hab_ne_q]
      apply hG3
      intro e' hmem
      exact hnot e' (List.mem_append_left _ hmem)
    · intro a b hne
      by_cases hab_ij : a = i ∧ b = j
      · obtain ⟨rfl, rfl⟩ := hab_ij
        exact ⟨qa, qb, e, hff_ij, List.mem_append_right _ (List.mem_singleton.2 rfl),
          List.mem_append_left _ hqP, hq_ne, hff_q⟩
      · by_cases hab_q : a = qa ∧ b = qb
        · obtain ⟨rfl, rfl⟩ := hab_q
          exact ⟨i, j, e, hff_q, List.mem_append_left _ hqP,
            List.mem_append_right _ (List.mem_singleton.2 rfl), Ne.symm hq_ne, hff_ij⟩
        · have hne2 : upd2 (upd2 st.ff i j (qa : ℤ)) qa qb (i : ℤ) a b ≠ -1 := hne
          rw [hff_other _ _ hab_ij hab_q] at hne2
          obtain ⟨k, j', e', h1, h2, h3, h4, h5⟩ := hG4 a b hne2
          have hqff2 : st.ff qa qb = -1 := hqff
          have hkj_ne_ij : ¬(k = i ∧ j' = j) := by
            rintro ⟨hk1, hk2⟩
            subst hk1
            subst hk2
            exact hfresh' e' h3
          have hkj_ne_q : ¬(k = qa ∧ j' = qb) := by
            rintro ⟨hk1, hk2⟩
            rw [hk1, hk2, hqff2] at h5
            omega
          refine ⟨k, j', e', ?_, List.mem_append_left _ h2, List.mem_append_left _ h3, h4, ?_⟩
          · show upd2 (upd2 st.ff i j (qa : ℤ)) qa qb (i : ℤ) a b = (k : ℤ)
            rw [hff_other _ _ hab_ij hab_q]
            exact h1
          · show upd2 (upd2 st.ff i j (qa : ℤ)) qa qb (i : ℤ) k j' = (a : ℤ)
            rw [hff_other _ _ hkj_ne_ij hkj_ne_q]
            exact h5

theorem foldl_good : ∀ (rest P : List ((ℕ × ℕ) × (ℤ × ℤ))) (st : FFState),
    Good P st → ((P ++ rest).map (fun x => x.1)).Nodup →
    Good (P ++ rest) (rest.foldl ffStep st) := by
  intro rest
  induction rest with
  | nil =>
      intro P st hG _
      simpa using hG
  | cons oc rest' ih =>
      intro P st hG hnd
      have hmap := hnd
      rw [List.map_append] at hmap
      obtain ⟨hPnd, _, hdisj⟩ := List.nodup_append.1 hmap
      have hfresh : oc.1 ∉ P.map (fun x => x.1) := by
        intro hc
        exact hdisj hc (List.mem_map.2 ⟨oc, List.mem_cons_self _ _, rfl⟩)
      have hstep := step_good P st oc hG hPnd hfresh
      have hre : P ++ oc :: rest' = (P ++ [oc]) ++ rest' := by simp
      rw [List.foldl_cons, hre]
      rw [hre] at hnd
      exact ih (P ++ [oc]) (ffStep st oc) hstep hnd

theorem good_final (faces : List (ℤ × ℤ × ℤ)) :
    Good (occList faces) (build_ff_state faces) := by
  have hinit : Good [] { ff := fun _ _ => -1, pending := [] } := by
    refine ⟨?_, ?_, ?_, ?_⟩
    · intro e q h
      simp at h
    · intro e q q' h
      simp at h
    · intro a b _
      rfl
    · intro a b hne
      exact absurd rfl hne
  have hnd : ((([] : List ((ℕ × ℕ) × (ℤ × ℤ))) ++ occList faces).map (fun x => x.1)).Nodup := by
    simpa [occList] using nodup_pos_occListFrom 0 faces
  have hres := foldl_good (occList faces) [] { ff := fun _ _ => -1, pending := [] } hinit hnd
  have h2 : ([] : List ((ℕ × ℕ) × (ℤ × ℤ))) ++ occList faces = occList faces := by simp
  rw [h2] at hres
  exact hres

/-! ## Claim C1: build_face_face_connectivity -/

/-- Claim C1 counterexample: counting occurrences per FACE, as the claim
words it, is refuted by the degenerate face (0, 0, 1) with two valid nodes:
its canonical edge (0, 1) occurs in exactly one face (the claim hypothesis,
at most two faces per edge, holds for every edge), yet the local edge at
position 0 does not keep the sentinel: the two occurrences of (0, 1) inside
the single face pair with each other and the entry becomes 0. -/
theorem faceFaceConnectivityCex :
    (∀ f ∈ [((0 : ℤ), (0 : ℤ), (1 : ℤ))],
        (0 ≤ f.1 ∧ f.1 < 2) ∧ (0 ≤ f.2.1 ∧ f.2.1 < 2) ∧ (0 ≤ f.2.2 ∧ f.2.2 < 2)) ∧
    (∀ e : ℤ × ℤ, List.countP (fun f => faceHasEdge f e) [((0 : ℤ), (0 : ℤ), (1 : ℤ))] ≤ 2) ∧
    List.countP (fun f => faceHasEdge f ((0 : ℤ), (1 : ℤ))) [((0 : ℤ), (0 : ℤ), (1 : ℤ))] = 1 ∧
    canonEdge (faceEdge ((0 : ℤ), (0 : ℤ), (1 : ℤ)) 0) = ((0 : ℤ), (1 : ℤ)) ∧
    ((build_face_face_connectivity [((0 : ℤ), (0 : ℤ), (1 : ℤ))]).getD 0 []).getD 0 0 = 0 ∧
    ((build_face_face_connectivity [((0 : ℤ), (0 : ℤ), (1 : ℤ))]).getD 0 []).getD 0 0 ≠ -1 := by
  refine ⟨by decide, ?_, by decide, by decide, by decide, by decide⟩
  intro e
  have h1 := List.countP_le_length (fun f => faceHasEdge f e)
    (l := [((0 : ℤ), (0 : ℤ), (1 : ℤ))])
  have h2 : ([((0 : ℤ), (0 : ℤ), (1 : ℤ))]).length = 1 := rfl
  omega

/-- Claim C1 (amended): for a faces array of valid node indices in which each
canonical edge arises from at most two (face, local position) occurrences,
build_face_face_connectivity yields an array of shape (num_faces, 3) in which
every non-sentinel entry is a valid face index, adjacency is symmetric (the
neighbor lists this face back at a local position carrying the same canonical
edge), and every local edge whose canonical pair arises from exactly one
(face, local position) occurrence keeps the sentinel -1 (occurrences must be
counted per (face, position) rather than per face: a canonical edge occurring
twice inside a single face pairs with itself). -/
theorem faceFaceConnectivitySpec (faces : List (ℤ × ℤ × ℤ)) (num_nodes : ℤ)
    (hvalid : ∀ f ∈ faces, (0 ≤ f.1 ∧ f.1 < num_nodes) ∧ (0 ≤ f.2.1 ∧ f.2.1 < num_nodes) ∧
        (0 ≤ f.2.2 ∧ f.2.2 < num_nodes))
    (hmult : ∀ oc ∈ occList faces,
        (occList faces).countP (fun oc2 => decide (oc2.2 = oc.2)) ≤ 2) :
    ((build_face_face_connectivity faces).length = faces.length ∧
      ∀ row ∈ build_face_face_connectivity faces, row.length = 3) ∧
    (∀ i j : ℕ, i < faces.length → j < 3 →
      ((build_face_face_connectivity faces).getD i []).getD j 0 ≠ -1 →
      ∃ k : ℕ, k < faces.length ∧
        ((build_face_face_connectivity faces).getD i []).getD j 0 = (k : ℤ)) ∧
    (∀ i j k : ℕ, i < faces.length → j < 3 →
      ((build_face_face_connectivity faces).getD i []).getD j 0 = (k : ℤ) →
      k < faces.length ∧ ∃ j' : ℕ, j' < 3 ∧
        canonEdge (faceEdge (faces.getD k (0, 0, 0)) j') =
          canonEdge (faceEdge (faces.getD i (0, 0, 0)) j) ∧
        ((build_face_face_connectivity faces).getD k []).getD j' 0 = (i : ℤ)) ∧
    (∀ i j : ℕ, i < faces.length → j < 3 →
      (occList faces).countP
        (fun oc2 => decide (oc2.2 = canonEdge (faceEdge (faces.getD i (0, 0, 0)) j))) = 1 →
      ((build_face_face_connectivity faces).getD i []).getD j 0 = -1) := by
  obtain ⟨hg1, hg2, hg3, hg4⟩ := good_final faces
  have hocc_char : ∀ (a b : ℕ) (e : ℤ × ℤ), ((a, b), e) ∈ occList faces →
      a < faces.length ∧ b < 3 ∧ e = canonEdge (faceEdge (faces.getD a (0, 0, 0)) b) := by
    intro a b e hmem
    rw [occList] at hmem
    obtain ⟨d, f, hget, ha, hb, he⟩ := mem_occListFrom.1 hmem
    have had : a = d := by omega
    subst had
    exact ⟨get?_some_lt faces a f hget, hb,
      by rw [he, getD_of_get? faces (0, 0, 0) a f hget]⟩
  refine ⟨⟨by simp [build_face_face_connectivity], ?_⟩, ?_, ?_, ?_⟩
  · intro row hrow
    rw [build_face_face_connectivity] at hrow
    rcases List.mem_map.1 hrow with ⟨i, _, rfl⟩
    simp
  · intro i j hi hj hne
    rw [bfc_entry faces i j hi hj] at hne
    obtain ⟨k, j', e, hval, hmem_ij, hmem_k, hnepair, hsym⟩ := hg4 i j hne
    have hk := (hocc_char k j' e hmem_k).1
    exact ⟨k, hk, by rw [bfc_entry faces i j hi hj]; exact hval⟩
  · intro i j k hi hj hval
    rw [bfc_entry faces i j hi hj] at hval
    have hne : (build_ff_state faces).ff i j ≠ -1 := by
      rw [hval]
      intro hc
      omega
    obtain ⟨k0, j', e, hval0, hmem_ij, hmem_k, hnepair, hsym⟩ := hg4 i j hne
    have hk0 : k0 = k := by
      rw [hval] at hval0
      exact_mod_cast hval0.symm
    subst hk0
    obtain ⟨hklen, hj'3, he_k⟩ := hocc_char k0 j' e hmem_k
    obtain ⟨_, _, he_ij⟩ := hocc_char i j e hmem_ij
    refine ⟨hklen, j', hj'3, ?_, ?_⟩
    · rw [← he_k, ← he_ij]
    · rw [bfc_entry faces k0 j' hklen hj'3]
      exact hsym
  · intro i j hi hj hcount
    by_contra hne0
    rw [bfc_entry faces i j hi hj] at hne0
    obtain ⟨k, j', e, hval, hmem_ij, hmem_k, hnepair, hsym⟩ := hg4 i j hne0
    obtain ⟨_, _, he_ij⟩ := hocc_char i j e hmem_ij
    have hxy : (((k, j'), e) : (ℕ × ℕ) × (ℤ × ℤ)) ≠ ((i, j), e) := by
      intro hc
      apply hnepair
      exact congrArg Prod.fst hc
    have h2 : 2 ≤ (occList faces).countP (fun oc2 => decide (oc2.2 = e)) :=
      two_mem_countP hmem_k hmem_ij hxy (by simp) (by simp)
    rw [← he_ij] at hcount
    omega

/-- Witness for faceFaceConnectivitySpec: the two-triangle quad of the spec
(faces (0,1,2) and (0,2,3) on four nodes) satisfies the hypotheses, and the
resulting adjacency array has one row per face. -/
theorem faceFaceConnectivitySpecWitness :
    (build_face_face_connectivity
        [((0 : ℤ), (1 : ℤ), (2 : ℤ)), ((0 : ℤ), (2 : ℤ), (3 : ℤ))]).length =
      ([((0 : ℤ), (1 : ℤ), (2 : ℤ)), ((0 : ℤ), (2 : ℤ), (3 : ℤ))] : List (ℤ × ℤ × ℤ)).length :=
  (faceFaceConnectivitySpec
    [((0 : ℤ), (1 : ℤ), (2 : ℤ)), ((0 : ℤ), (2 : ℤ), (3 : ℤ))] 4
    (by decide) (by decide)).1.1
